import Mathlib

/-!
Verification of the session coordinator of the DUO-CHAT-APP ("VocalCoach
Pro") browser application. The definitions below are a shallow embedding of
the coordinator logic in `src/App.tsx` and of the remote-client wrappers
(`generateAssessment`, `generateSpeech`) declared alongside `src/types.ts`.
Event handlers become pure state-transition functions; remote-call outcomes
are passed in as explicit `Except` values; the platform primitives the code
leans on (`String.prototype.toLowerCase`, `String.prototype.includes`,
`JSON.parse`, the output audio clock) are modelled explicitly.
-/

namespace DuoChat

/-- Role of a chat message, the `'user' | 'model'` union in `types.ts`. -/
inductive Role where
  | user
  | model
deriving DecidableEq

/-- A conversation message (`Message` in `types.ts`); timestamps are
`Date.now()` milliseconds. -/
structure Message where
  role : Role
  content : String
  senderName : Option String := none
  timestamp : Int
deriving DecidableEq

/-- JavaScript `String.prototype.toLowerCase`, modelled characterwise (all
strings the application compares are ASCII). -/
def strToLower (s : String) : String := ⟨s.data.map Char.toLower⟩

/-- Contiguous-substring containment on character lists, modelling the
JavaScript `String.prototype.includes` platform primitive. -/
def listIsInfixOf (needle : List Char) : List Char → Bool
  | [] => needle.isEmpty
  | c :: rest => needle.isPrefixOf (c :: rest) || listIsInfixOf needle rest

/-- JavaScript `s.includes(k)` on strings. -/
def strIncludes (s k : String) : Bool := listIsInfixOf k.data s.data

/-- The fixed assessment trigger keyword set appearing both in
`handleSendMessage` and in the `turnComplete` branch of the live `onmessage`
handler in `App.tsx`. -/
def triggerKeywords : List String :=
  ["assessment", "report", "i need my language assessment now"]

/-- The trigger test `triggerKeywords.some(k => text.toLowerCase().includes(k))`
from `App.tsx`. -/
def isTriggerText (text : String) : Bool :=
  triggerKeywords.any fun k => strIncludes (strToLower text) k

/-- Elapsed session time, `getElapsedTime` in `App.tsx`:
`!sessionStartTime ? 0 : Math.max(0, currentTime - sessionStartTime)`.
A JavaScript-falsy start (absent, or the numeric value `0`) yields `0`. -/
def getElapsedTime (sessionStartTime : Option Int) (currentTime : Int) : Int :=
  match sessionStartTime with
  | none => 0
  | some t0 => if t0 = 0 then 0 else max 0 (currentTime - t0)

/-- The timer gate `canRequestAssessment` in `App.tsx`. -/
def canRequestAssessment (sessionStartTime : Option Int) (currentTime : Int) : Bool :=
  getElapsedTime sessionStartTime currentTime ≥ 180000

/-- A scheduled output buffer source node; `stopped` records whether
`stop()` has been called on it. -/
structure AudioSource where
  id : Nat
  stopped : Bool
deriving DecidableEq

/-- Live playback scheduling state: the `nextStartTimeRef` cursor and the
`audioSourcesRef` tracked set (in insertion order). Times are rational
seconds of the output audio clock. -/
structure PlaybackState where
  nextStartTime : ℚ
  sources : List AudioSource
deriving DecidableEq

/-- The `audioChunk` branch of the live `onmessage` handler in `App.tsx`:
the cursor is first pulled up to the output clock
(`Math.max(nextStartTimeRef.current, ctx.currentTime)`), the decoded chunk is
started at that time, the cursor advances by the chunk's duration, and the
new source is tracked. Returns the scheduled start time alongside the new
state. -/
def scheduleAudioChunk (clockNow duration : ℚ) (srcId : Nat) (st : PlaybackState) :
    ℚ × PlaybackState :=
  let start := max st.nextStartTime clockNow
  (start,
   { nextStartTime := start + duration,
     sources := st.sources ++ [{ id := srcId, stopped := false }] })

/-- Folding `scheduleAudioChunk` over a sequence of `audioChunk` events, each
given as `(output clock at arrival, chunk duration)`; returns the list of
`(scheduled start, duration)` spans together with the final state. -/
def scheduleTrace : List (ℚ × ℚ) → PlaybackState → List (ℚ × ℚ) × PlaybackState
  | [], st => ([], st)
  | (clockNow, duration) :: rest, st =>
      match scheduleAudioChunk clockNow duration st.sources.length st with
      | (start, st1) =>
          match scheduleTrace rest st1 with
          | (tr, st2) => ((start, duration) :: tr, st2)

/-- `stop()` on one tracked source node. -/
def stopSource (s : AudioSource) : AudioSource := { s with stopped := true }

/-- The `interrupted` branch of the live `onmessage` handler: `stop()` every
tracked source, clear the tracked set, reset the cursor to zero. The first
component returns the sources exactly as `stop()` left them. -/
def handleInterrupted (st : PlaybackState) : List AudioSource × PlaybackState :=
  (st.sources.map stopSource, { nextStartTime := 0, sources := [] })

theorem listIsInfixOf_iff (needle hay : List Char) :
    listIsInfixOf needle hay = true ↔ needle <:+: hay := by
  induction hay with
  | nil =>
      simp [listIsInfixOf, List.isEmpty_iff]
  | cons c rest ih =>
      simp [listIsInfixOf, ih, List.infix_cons_iff, List.isPrefixOf_iff_prefix]

/-- Claim C6: the assessment trigger test is a case-insensitive substring
match of the user's text against the fixed keyword set — it fires exactly
when the lowercased text contains one of the keywords as a contiguous
substring — and the message "I need my REPORT now" matches. -/
theorem trigger_is_case_insensitive_substring_match :
    (∀ text : String,
      isTriggerText text = true ↔
        ∃ k ∈ triggerKeywords, k.data <:+: (strToLower text).data) ∧
    isTriggerText "I need my REPORT now" = true := by
  constructor
  · intro text
    simp [isTriggerText, List.any_eq_true, strIncludes, listIsInfixOf_iff]
  · decide

/-- Claim C7: the timer gate holds exactly when the elapsed session time is
at least 180000 ms; for a started (nonzero-start) session this is
`now - start ≥ 180000`; it is false at elapsed 179999 ms and true at elapsed
180000 ms. -/
theorem canRequestAssessment_boundary :
    (∀ s c, canRequestAssessment s c = true ↔ 180000 ≤ getElapsedTime s c) ∧
    (∀ t0 c : Int, t0 ≠ 0 →
      (canRequestAssessment (some t0) c = true ↔ 180000 ≤ c - t0)) ∧
    canRequestAssessment (some 1) 180000 = false ∧
    canRequestAssessment (some 1) 180001 = true := by
  refine ⟨?_, ?_, by decide, by decide⟩
  · intro s c
    simp [canRequestAssessment]
  · intro t0 c h
    simp [canRequestAssessment, getElapsedTime, h, le_max_iff]

/-- Boundary witness for `canRequestAssessment_boundary`: a session started
at millisecond 1, probed at the inclusive 180000 ms boundary and just
below it. -/
theorem canRequestAssessment_boundary_witness :
    canRequestAssessment (some 1) 180000 = false ∧
    (canRequestAssessment (some 1) 180001 = true ↔ 180000 ≤ (180001 : Int) - 1) :=
  ⟨canRequestAssessment_boundary.2.2.1,
   canRequestAssessment_boundary.2.1 1 180001 (by decide)⟩

theorem scheduleTrace_head_start_ge (events : List (ℚ × ℚ)) (st : PlaybackState) :
    ∀ p ∈ (scheduleTrace events st).1.head?, st.nextStartTime ≤ p.1 := by
  cases events with
  | nil =>
      intro p hp
      simp [scheduleTrace] at hp
  | cons e rest =>
      intro p hp
      obtain ⟨n, d⟩ := e
      simp [scheduleTrace, scheduleAudioChunk] at hp
      subst hp
      exact le_max_left _ _

theorem scheduleTrace_chain_no_overlap (events : List (ℚ × ℚ)) (st : PlaybackState) :
    List.Chain' (fun a b : ℚ × ℚ => a.1 + a.2 ≤ b.1) (scheduleTrace events st).1 := by
  induction events generalizing st with
  | nil => simp [scheduleTrace]
  | cons e rest ih =>
      obtain ⟨n, d⟩ := e
      rw [show scheduleTrace ((n, d) :: rest) st =
          ((max st.nextStartTime n, d) ::
              (scheduleTrace rest
                { nextStartTime := max st.nextStartTime n + d,
                  sources := st.sources ++
                    [{ id := st.sources.length, stopped := false }] }).1,
            (scheduleTrace rest
                { nextStartTime := max st.nextStartTime n + d,
                  sources := st.sources ++
                    [{ id := st.sources.length, stopped := false }] }).2) from rfl]
      refine List.chain'_cons'.mpr ⟨?_, ih _⟩
      intro b hb
      have h := scheduleTrace_head_start_ge rest _ b hb
      exact h

theorem scheduleTrace_chain_mono (events : List (ℚ × ℚ)) (st : PlaybackState)
    (hd : ∀ e ∈ events, 0 ≤ e.2) :
    List.Chain' (fun a b : ℚ × ℚ => a.1 ≤ b.1) (scheduleTrace events st).1 := by
  induction events generalizing st with
  | nil => simp [scheduleTrace]
  | cons e rest ih =>
      obtain ⟨n, d⟩ := e
      rw [show scheduleTrace ((n, d) :: rest) st =
          ((max st.nextStartTime n, d) ::
              (scheduleTrace rest
                { nextStartTime := max st.nextStartTime n + d,
                  sources := st.sources ++
                    [{ id := st.sources.length, stopped := false }] }).1,
            (scheduleTrace rest
                { nextStartTime := max st.nextStartTime n + d,
                  sources := st.sources ++
                    [{ id := st.sources.length, stopped := false }] }).2) from rfl]
      refine List.chain'_cons'.mpr
        ⟨?_, ih _ (fun x hx => hd x (List.mem_cons_of_mem _ hx))⟩
      intro b hb
      have h := scheduleTrace_head_start_ge rest _ b hb
      have h0 : (0 : ℚ) ≤ d := hd (n, d) (List.mem_cons_self _ _)
      simp only at h ⊢
      calc (max st.nextStartTime n) ≤ max st.nextStartTime n + d := by linarith
        _ ≤ b.1 := h

/-- Claim C4: each audio chunk is scheduled to start at
`max(nextStartTime, outputClockNow)` and the cursor then advances by the
chunk's duration; consequently, over any sequence of `audioChunk` events,
each scheduled start is at least the previous start plus the previous
chunk's duration (no overlap), and — chunk durations being nonnegative —
the scheduled starts are non-decreasing. -/
theorem audioChunk_schedule_sequential :
    (∀ clockNow duration srcId st,
        (scheduleAudioChunk clockNow duration srcId st).1 =
          max st.nextStartTime clockNow ∧
        (scheduleAudioChunk clockNow duration srcId st).2.nextStartTime =
          max st.nextStartTime clockNow + duration) ∧
    (∀ events st,
      List.Chain' (fun a b : ℚ × ℚ => a.1 + a.2 ≤ b.1)
        (scheduleTrace events st).1) ∧
    (∀ events st, (∀ e ∈ events, 0 ≤ e.2) →
      List.Chain' (fun a b : ℚ × ℚ => a.1 ≤ b.1) (scheduleTrace events st).1) :=
  ⟨fun _ _ _ _ => ⟨rfl, rfl⟩, scheduleTrace_chain_no_overlap, scheduleTrace_chain_mono⟩

/-- Witness for `audioChunk_schedule_sequential` on a concrete burst of three
chunks (the second arriving while the first is still playing, the third
after a clock jump). -/
theorem audioChunk_schedule_sequential_witness :
    List.Chain' (fun a b : ℚ × ℚ => a.1 ≤ b.1)
      (scheduleTrace [(0, 1), (0, 2), (5, 1)]
        { nextStartTime := 0, sources := [] }).1 :=
  audioChunk_schedule_sequential.2.2 [(0, 1), (0, 2), (5, 1)]
    { nextStartTime := 0, sources := [] } (by decide)

/-- Claim C5: for every playback state, the `interrupted` handler stops every
tracked source, empties the tracked set and resets `nextStartTime` to
zero. -/
theorem interrupted_clears_playback :
    ∀ st : PlaybackState,
      ((handleInterrupted st).1.all fun s => s.stopped) = true ∧
      (handleInterrupted st).1.length = st.sources.length ∧
      (handleInterrupted st).2.sources = [] ∧
      (handleInterrupted st).2.nextStartTime = 0 := by
  intro st
  refine ⟨?_, by simp [handleInterrupted], rfl, rfl⟩
  simp [handleInterrupted, List.all_eq_true, stopSource]

/-- Live transcription/timeline state: the visible message list and the two
accumulating transcription buffers (`transcriptionBufferRef` in
`App.tsx`). -/
structure LiveState where
  messages : List Message
  userBuf : String
  modelBuf : String
deriving DecidableEq

/-- The `outputTranscription` branch of the live `onmessage` handler: the
delta is appended to the model buffer; then, if the last timeline message is
a `model` message, it is replaced in place with the accumulated buffer,
otherwise a new `model` message holding just the delta is appended. -/
def handleOutputTranscription (delta : String) (now : Int) (st : LiveState) :
    LiveState :=
  let newBuf := st.modelBuf ++ delta
  let messages :=
    match st.messages.getLast? with
    | some last =>
        if last.role = Role.model then
          st.messages.dropLast ++ [{ last with content := newBuf }]
        else
          st.messages ++ [{ role := Role.model, content := delta, timestamp := now }]
    | none => st.messages ++ [{ role := Role.model, content := delta, timestamp := now }]
  { st with modelBuf := newBuf, messages := messages }

/-- The `setMessages` update run by the `turnComplete` branch when the
buffered user transcript is nonempty: take the trailing message, drop it
from the tail when it is a `model` message, append the flushed `user`
message, then re-append the taken message; the JavaScript `filter(Boolean)`
drops the `undefined` taken from an empty list. -/
def flushUserTranscript (userText : String) (now : Int) (msgs : List Message) :
    List Message :=
  let lastMsg := msgs.getLast?
  let withoutLast :=
    if lastMsg.map Message.role = some Role.model then msgs.dropLast else msgs
  ((withoutLast.map some) ++
      [some { role := Role.user, content := userText, timestamp := now },
       lastMsg]).filterMap id

/-- The `turnComplete` branch of the live `onmessage` handler: flush a
nonempty buffered user transcript into the timeline, decide whether the
assessment redirect fires (JavaScript-truthy lowercased transcript that
contains a trigger keyword, with the timer gate open), then clear both
transcription buffers. The returned flag records whether
`stopLiveSession` / `handleTriggerAssessment` are invoked. -/
def handleTurnComplete (now : Int) (canAssess : Bool) (st : LiveState) :
    LiveState × Bool :=
  let userText := st.userBuf
  let messages :=
    if userText ≠ "" then flushUserTranscript userText now st.messages
    else st.messages
  let trig := (strToLower userText ≠ "" && isTriggerText userText) && canAssess
  ({ messages := messages, userBuf := "", modelBuf := "" }, trig)

theorem filterMap_id_map_some {α : Type} (l : List α) :
    (l.map some).filterMap id = l := by
  induction l with
  | nil => rfl
  | cons a t ih => simp [ih]

/-- Claim C2: when the timeline ends in a model message and the buffered user
transcript is nonempty, `turnComplete` reconstructs the last two timeline
entries as `[...prior, userMessage, modelMessage]` — the flushed user
message lands immediately before the just-finalized model message. -/
theorem turnComplete_reorders_user_before_model
    (prior : List Message) (m : Message) (userText modelBuf : String)
    (now : Int) (canAssess : Bool)
    (hm : m.role = Role.model) (hu : userText ≠ "") :
    (handleTurnComplete now canAssess
        { messages := prior ++ [m], userBuf := userText,
          modelBuf := modelBuf }).1.messages =
      prior ++ [{ role := Role.user, content := userText, timestamp := now }, m] := by
  have h1 : (prior ++ [m]).getLast? = some m := List.getLast?_concat prior
  have h2 : (handleTurnComplete now canAssess
      { messages := prior ++ [m], userBuf := userText,
        modelBuf := modelBuf }).1.messages =
      flushUserTranscript userText now (prior ++ [m]) := by
    simp [handleTurnComplete, hu]
  rw [h2]
  simp only [flushUserTranscript, h1]
  simp [hm, filterMap_id_map_some]

/-- Witness for `turnComplete_reorders_user_before_model`: the spec scenario
with buffered transcript "what is this" and a pending trailing model
message. -/
theorem turnComplete_reorders_user_before_model_witness :
    (handleTurnComplete 5 false
        { messages := [{ role := Role.model, content := "Hello", timestamp := 1 }],
          userBuf := "what is this", modelBuf := "Hello" }).1.messages =
      [{ role := Role.user, content := "what is this", timestamp := 5 },
       { role := Role.model, content := "Hello", timestamp := 1 }] :=
  turnComplete_reorders_user_before_model []
    { role := Role.model, content := "Hello", timestamp := 1 }
    "what is this" "Hello" 5 false rfl (by decide)

/-- Claim C3: an `outputTranscription` delta replaces the last timeline
message in place with the accumulated model buffer when that message is a
model message, and appends a new model message otherwise; hence the deltas
"Hi" then " there", arriving on a fresh model buffer over a timeline not
ending in a model message, leave exactly one trailing model message with
content "Hi there". -/
theorem outputTranscription_merges_in_place (st : LiveState) (t1 t2 : Int) :
    (∀ delta now last, st.messages.getLast? = some last → last.role = Role.model →
        (handleOutputTranscription delta now st).messages =
          st.messages.dropLast ++ [{ last with content := st.modelBuf ++ delta }]) ∧
    (∀ delta now, st.messages.getLast?.map Message.role ≠ some Role.model →
        (handleOutputTranscription delta now st).messages =
          st.messages ++ [{ role := Role.model, content := delta, timestamp := now }]) ∧
    (st.modelBuf = "" → st.messages.getLast?.map Message.role ≠ some Role.model →
        (handleOutputTranscription " there" t2
            (handleOutputTranscription "Hi" t1 st)).messages =
          st.messages ++
            [{ role := Role.model, content := "Hi there", timestamp := t1 }]) := by
  have hrep : ∀ (s : LiveState) (delta : String) (now : Int) (last : Message),
      s.messages.getLast? = some last → last.role = Role.model →
      (handleOutputTranscription delta now s).messages =
        s.messages.dropLast ++ [{ last with content := s.modelBuf ++ delta }] := by
    intro s delta now last hlast hrole
    simp [handleOutputTranscription, hlast, hrole]
  have happ : ∀ (s : LiveState) (delta : String) (now : Int),
      s.messages.getLast?.map Message.role ≠ some Role.model →
      (handleOutputTranscription delta now s).messages =
        s.messages ++ [{ role := Role.model, content := delta, timestamp := now }] := by
    intro s delta now hne
    match h : s.messages.getLast? with
    | none => simp [handleOutputTranscription, h]
    | some last =>
        have hr : ¬ last.role = Role.model := by
          intro hr
          apply hne
          rw [h]
          simp [hr]
        simp [handleOutputTranscription, h, hr]
  refine ⟨fun delta now last hl hr => hrep st delta now last hl hr,
          fun delta now hne => happ st delta now hne, ?_⟩
  intro hbuf hne
  have h1 := happ st "Hi" t1 hne
  have h2 : (handleOutputTranscription "Hi" t1 st).modelBuf = "Hi" := by
    simp [handleOutputTranscription, hbuf]
  have h3 : (handleOutputTranscription "Hi" t1 st).messages.getLast? =
      some { role := Role.model, content := "Hi", timestamp := t1 } := by
    rw [h1]
    exact List.getLast?_concat _
  have h4 := hrep (handleOutputTranscription "Hi" t1 st) " there" t2 _ h3 rfl
  rw [h4, h2, h1, List.dropLast_concat]
  rfl

/-- Witness for `outputTranscription_merges_in_place`: the spec scenario run
on a timeline holding one user message and fresh buffers. -/
theorem outputTranscription_merges_in_place_witness :
    (handleOutputTranscription " there" 3
        (handleOutputTranscription "Hi" 2
          { messages := [{ role := Role.user, content := "hello", timestamp := 1 }],
            userBuf := "", modelBuf := "" })).messages =
      [{ role := Role.user, content := "hello", timestamp := 1 },
       { role := Role.model, content := "Hi there", timestamp := 2 }] :=
  (outputTranscription_merges_in_place
      { messages := [{ role := Role.user, content := "hello", timestamp := 1 }],
        userBuf := "", modelBuf := "" } 2 3).2.2 rfl (by decide)

/-- Claim C10: a `turnComplete` whose buffered user transcript is empty
leaves the message timeline unchanged and does not fire the assessment
redirect; only the transcription buffers are cleared. -/
theorem turnComplete_empty_transcript_frame
    (st : LiveState) (now : Int) (canAssess : Bool) (h : st.userBuf = "") :
    handleTurnComplete now canAssess st =
      ({ messages := st.messages, userBuf := "", modelBuf := "" }, false) := by
  simp [handleTurnComplete, h, strToLower]

/-- Witness for `turnComplete_empty_transcript_frame`: an empty user buffer
over a nonempty timeline, with the gate open. -/
theorem turnComplete_empty_transcript_frame_witness :
    handleTurnComplete 7 true
        { messages := [{ role := Role.model, content := "Hi", timestamp := 1 }],
          userBuf := "", modelBuf := "xyz" } =
      ({ messages := [{ role := Role.model, content := "Hi", timestamp := 1 }],
         userBuf := "", modelBuf := "" }, false) :=
  turnComplete_empty_transcript_frame
    { messages := [{ role := Role.model, content := "Hi", timestamp := 1 }],
      userBuf := "", modelBuf := "xyz" } 7 true rfl

/-- `ProficiencyLevel` from `types.ts`. -/
inductive ProficiencyLevel where
  | Novice
  | Beginner
  | Intermediate
  | Advanced
deriving DecidableEq

/-- The nested `precisionAnalysis` object of `AssessmentReport`. -/
structure PrecisionAnalysis where
  vocabulary : String
  grammar : String
  fluency : String
deriving DecidableEq

/-- `CanDoExample` from `types.ts`. -/
structure CanDoExample where
  quote : String
  translation : String
deriving DecidableEq

/-- `CannotYetDoExample` from `types.ts`. -/
structure CannotYetDoExample where
  quote : String
  correction : String
deriving DecidableEq

/-- `AssessmentReport` from `types.ts`. -/
structure AssessmentReport where
  overallScore : ProficiencyLevel
  functionalAbility : String
  precisionAnalysis : PrecisionAnalysis
  contentDepth : String
  canDo : List CanDoExample
  cannotYetDo : List CannotYetDoExample
  summary : String
  fullSessionTranscript : String
deriving DecidableEq

/-- `AppState` from `types.ts`. -/
inductive AppState where
  | CHATTING
  | ASSESSING
  | REPORT
deriving DecidableEq

/-- The coordinator state touched by `handleTriggerAssessment` in `App.tsx`:
app phase, loading flag, stored report, conversation timeline, the alerts
surfaced so far, and whether the readout audio playback was started. -/
structure CoordState where
  appState : AppState
  isLoading : Bool
  report : Option AssessmentReport
  messages : List Message
  alerts : List String
  playbackStarted : Bool
deriving DecidableEq

/-- `generateSpeech` in the remote-client module: the entire remote call sits
inside a `try` whose `catch` returns `undefined`, and on success the
optional-chained `inlineData.data` may itself be absent. The remote outcome
is passed in as an explicit value; the text argument only feeds the remote
request. -/
def generateSpeech (_text : String) (callOutcome : Except Unit (Option String)) :
    Option String :=
  match callOutcome with
  | Except.ok payload => payload
  | Except.error _ => none

/-- `handleTriggerAssessment` in `App.tsx` as a state transition, with the
two remote outcomes (the `generateAssessment` call, and the speech call
underlying `generateSpeech`) passed in explicitly. The phase is first set to
ASSESSING and loading turned on; on success the report is stored, the phase
becomes REPORT, and the readout audio is started only when a
JavaScript-truthy (nonempty) payload came back; on failure the phase reverts
to CHATTING with the alert "Assessment synthesis failed." and no report is
stored. The `finally` clause turns loading off on both paths. -/
def handleTriggerAssessment (assessOutcome : Except Unit AssessmentReport)
    (speechOutcome : Except Unit (Option String)) (st : CoordState) : CoordState :=
  let st1 : CoordState := { st with appState := AppState.ASSESSING, isLoading := true }
  match assessOutcome with
  | Except.error _ =>
      { st1 with appState := AppState.CHATTING,
                 alerts := st1.alerts ++ ["Assessment synthesis failed."],
                 isLoading := false }
  | Except.ok assessment =>
      let st2 : CoordState :=
        { st1 with report := some assessment, appState := AppState.REPORT }
      let payload :=
        generateSpeech ("Your report is ready. " ++ assessment.summary) speechOutcome
      let played :=
        match payload with
        | some d => d ≠ ""
        | none => false
      { st2 with playbackStarted := played, isLoading := false }

/-- Claim C8: when the assessment synthesis call fails, the coordinator
reverts to the chatting phase, surfaces the user-visible failure alert,
stores no report, leaves the conversation timeline untouched, and clears the
loading flag. -/
theorem assessment_failure_reverts (st : CoordState)
    (speechOutcome : Except Unit (Option String)) :
    (handleTriggerAssessment (Except.error ()) speechOutcome st).appState =
        AppState.CHATTING ∧
    (handleTriggerAssessment (Except.error ()) speechOutcome st).report = st.report ∧
    (handleTriggerAssessment (Except.error ()) speechOutcome st).messages =
        st.messages ∧
    (handleTriggerAssessment (Except.error ()) speechOutcome st).alerts =
        st.alerts ++ ["Assessment synthesis failed."] ∧
    (handleTriggerAssessment (Except.error ()) speechOutcome st).isLoading = false :=
  ⟨rfl, rfl, rfl, rfl, rfl⟩

/-- Claim C9: `generateSpeech` never raises — its result is a plain optional
payload, `none` on any failure of the underlying remote call — and its
caller treats an absent payload as "no audio": the assessment flow still
stores the report, reaches the REPORT phase, starts no playback and raises
no alert. -/
theorem generateSpeech_never_raises :
    (∀ text, generateSpeech text (Except.error ()) = none) ∧
    (∀ text payload, generateSpeech text (Except.ok payload) = payload) ∧
    (∀ st a,
      (handleTriggerAssessment (Except.ok a) (Except.error ()) st).appState =
          AppState.REPORT ∧
      (handleTriggerAssessment (Except.ok a) (Except.error ()) st).report = some a ∧
      (handleTriggerAssessment (Except.ok a) (Except.error ()) st).playbackStarted =
          false ∧
      (handleTriggerAssessment (Except.ok a) (Except.error ()) st).alerts =
          st.alerts) :=
  ⟨fun _ => rfl, fun _ _ => rfl, fun _ _ => ⟨rfl, rfl, rfl, rfl⟩⟩

/-- JSON values as produced by the platform primitive `JSON.parse`; numbers
keep their lexeme unevaluated, which is enough for everything below. -/
inductive Json where
  | null
  | boolean (b : Bool)
  | number (lexeme : String)
  | string (s : String)
  | array (elems : List Json)
  | object (members : List (String × Json))

/-- JSON whitespace skip (space, tab, line feed, carriage return). -/
def skipWs : List Char → List Char
  | [] => []
  | c :: rest =>
      if c == ' ' || c == '\t' || c == '\n' || c == '\r' then skipWs rest
      else c :: rest

/-- Value of a hexadecimal digit. -/
def hexVal (c : Char) : Option Nat :=
  if 48 ≤ c.toNat && c.toNat ≤ 57 then some (c.toNat - 48)
  else if 97 ≤ c.toNat && c.toNat ≤ 102 then some (c.toNat - 87)
  else if 65 ≤ c.toNat && c.toNat ≤ 70 then some (c.toNat - 55)
  else none

/-- Parse the body of a JSON string after the opening quote, handling the
standard escapes; a `\u` escape must denote a Unicode scalar value in this
model (the application never relies on lone surrogates). The fuel bounds the
recursion; callers supply more than the input length. -/
def parseStringBody : Nat → List Char → Option (String × List Char)
  | 0, _ => none
  | fuel + 1, cs =>
    match cs with
    | [] => none
    | c :: rest =>
      if c = '"' then some ("", rest)
      else if c = '\\' then
        match rest with
        | [] => none
        | e :: rest2 =>
          let esc : Option (Char × List Char) :=
            if e = '"' then some ('"', rest2)
            else if e = '\\' then some ('\\', rest2)
            else if e = '/' then some ('/', rest2)
            else if e = 'b' then some ('\x08', rest2)
            else if e = 'f' then some ('\x0c', rest2)
            else if e = 'n' then some ('\n', rest2)
            else if e = 'r' then some ('\r', rest2)
            else if e = 't' then some ('\t', rest2)
            else if e = 'u' then
              match rest2 with
              | h1 :: h2 :: h3 :: h4 :: rest3 =>
                match hexVal h1, hexVal h2, hexVal h3, hexVal h4 with
                | some a, some b, some c2, some d =>
                  let n := ((a * 16 + b) * 16 + c2) * 16 + d
                  if n < 55296 || (57343 < n && n < 1114112) then
                    some (Char.ofNat n, rest3)
                  else none
                | _, _, _, _ => none
              | _ => none
            else none
          match esc with
          | some (ch, rest4) =>
            match parseStringBody fuel rest4 with
            | some (s, rem) => some (⟨ch :: s.data⟩, rem)
            | none => none
          | none => none
      else if c.toNat < 32 then none
      else
        match parseStringBody fuel rest with
        | some (s, rem) => some (⟨c :: s.data⟩, rem)
        | none => none

/-- Span of leading decimal digits. -/
def digitSpan : List Char → List Char × List Char
  | [] => ([], [])
  | c :: rest =>
      if 48 ≤ c.toNat && c.toNat ≤ 57 then
        match digitSpan rest with
        | (ds, rem) => (c :: ds, rem)
      else ([], c :: rest)

/-- Fraction and exponent tail of a JSON number, appended to the lexeme
accumulated so far. -/
def numTail (acc : List Char) (cs : List Char) : Option (String × List Char) :=
  let fracRes : Option (List Char × List Char) :=
    match cs with
    | '.' :: rest =>
      match digitSpan rest with
      | ([], _) => none
      | (ds, rem) => some (acc ++ '.' :: ds, rem)
    | _ => some (acc, cs)
  match fracRes with
  | none => none
  | some (acc2, cs2) =>
    match cs2 with
    | c :: rest =>
      if c == 'e' || c == 'E' then
        match rest with
        | '+' :: r =>
          match digitSpan r with
          | ([], _) => none
          | (ds, rem) => some (⟨acc2 ++ c :: '+' :: ds⟩, rem)
        | '-' :: r =>
          match digitSpan r with
          | ([], _) => none
          | (ds, rem) => some (⟨acc2 ++ c :: '-' :: ds⟩, rem)
        | _ =>
          match digitSpan rest with
          | ([], _) => none
          | (ds, rem) => some (⟨acc2 ++ c :: ds⟩, rem)
      else some (⟨acc2⟩, cs2)
    | [] => some (⟨acc2⟩, [])

/-- Lex a JSON number: optional minus, integer part without leading zeros,
optional fraction, optional exponent. The lexeme is returned unevaluated. -/
def parseNumberLex (cs : List Char) : Option (String × List Char) :=
  match cs with
  | '-' :: c :: rest =>
    if c = '0' then numTail ['-', '0'] rest
    else if 49 ≤ c.toNat && c.toNat ≤ 57 then
      match digitSpan rest with
      | (ds, rem) => numTail ('-' :: c :: ds) rem
    else none
  | c :: rest =>
    if c = '0' then numTail ['0'] rest
    else if 49 ≤ c.toNat && c.toNat ≤ 57 then
      match digitSpan rest with
      | (ds, rem) => numTail (c :: ds) rem
    else none
  | [] => none

/-- Match an exact keyword literal. -/
def stripLit (lit cs : List Char) : Option (List Char) :=
  if lit.isPrefixOf cs then some (cs.drop lit.length) else none

/-- Comma-separated array elements (the input starts at the first element),
given the value parser of the nesting level below. The fuel bounds the
number of elements. -/
def arrayElemsLoop (pv : List Char → Option (Json × List Char)) :
    Nat → List Char → Option (List Json × List Char)
  | 0, _ => none
  | fuel + 1, cs =>
    match pv cs with
    | none => none
    | some (v, rest) =>
      match skipWs rest with
      | ',' :: rest2 =>
        match arrayElemsLoop pv fuel rest2 with
        | some (vs, rem) => some (v :: vs, rem)
        | none => none
      | ']' :: rem => some ([v], rem)
      | _ => none

/-- Comma-separated object members (the input starts at the first key),
given the value parser of the nesting level below. -/
def objMembersLoop (pv : List Char → Option (Json × List Char)) :
    Nat → List Char → Option (List (String × Json) × List Char)
  | 0, _ => none
  | fuel + 1, cs =>
    match skipWs cs with
    | '"' :: rest =>
      match parseStringBody (rest.length + 1) rest with
      | none => none
      | some (key, rest2) =>
        match skipWs rest2 with
        | ':' :: rest3 =>
          match pv rest3 with
          | none => none
          | some (v, rest4) =>
            match skipWs rest4 with
            | ',' :: rest5 =>
              match objMembersLoop pv fuel rest5 with
              | some (ms, rem) => some ((key, v) :: ms, rem)
              | none => none
            | '}' :: rem => some ([(key, v)], rem)
            | _ => none
        | _ => none
    | _ => none

/-- Parse one JSON value; the fuel bounds the nesting depth. -/
def parseValue : Nat → List Char → Option (Json × List Char)
  | 0, _ => none
  | fuel + 1, cs =>
    match skipWs cs with
    | [] => none
    | c :: rest =>
      if c = '{' then
        match skipWs rest with
        | '}' :: rem => some (Json.object [], rem)
        | cs2 =>
          match objMembersLoop (parseValue fuel) (cs2.length + 1) cs2 with
          | some (ms, rem) => some (Json.object ms, rem)
          | none => none
      else if c = '[' then
        match skipWs rest with
        | ']' :: rem => some (Json.array [], rem)
        | cs2 =>
          match arrayElemsLoop (parseValue fuel) (cs2.length + 1) cs2 with
          | some (vs, rem) => some (Json.array vs, rem)
          | none => none
      else if c = '"' then
        match parseStringBody (rest.length + 1) rest with
        | some (s, rem) => some (Json.string s, rem)
        | none => none
      else if c = 't' then
        match stripLit ['t', 'r', 'u', 'e'] (c :: rest) with
        | some rem => some (Json.boolean true, rem)
        | none => none
      else if c = 'f' then
        match stripLit ['f', 'a', 'l', 's', 'e'] (c :: rest) with
        | some rem => some (Json.boolean false, rem)
        | none => none
      else if c = 'n' then
        match stripLit ['n', 'u', 'l', 'l'] (c :: rest) with
        | some rem => some (Json.null, rem)
        | none => none
      else
        match parseNumberLex (c :: rest) with
        | some (lex, rem) => some (Json.number lex, rem)
        | none => none

/-- Modelled platform primitive: strict ECMA-404 `JSON.parse`, returning
`none` where the JavaScript original throws a syntax error. -/
def jsonParse (s : String) : Option Json :=
  match parseValue (s.data.length + 1) s.data with
  | some (j, rem) => if skipWs rem = [] then some j else none
  | none => none

/-- The parse step of `generateAssessment` in the remote-client module:
`JSON.parse` applied to the response text, where JavaScript `||` substitutes
the two-character empty-object literal for a missing or empty (falsy)
response text, and a `JSON.parse` failure is rethrown as the
assessment-synthesis error. No shape validation is performed on the parsed
value before it is returned as the report. -/
def generateAssessmentParse (respText : Option String) : Except String Json :=
  let effective :=
    match respText with
    | none => "\x7b\x7d"
    | some s => if s = "" then "\x7b\x7d" else s
  match jsonParse effective with
  | some j => Except.ok j
  | none => Except.error "Assessment synthesis failed."

/-- The `required` field list of the structured-output response schema in
`generateAssessment`. -/
def requiredReportFields : List String :=
  ["overallScore", "functionalAbility", "precisionAnalysis", "summary",
   "fullSessionTranscript"]

/-- Whether a JSON value is an object carrying the given key. -/
def jsonHasKey (j : Json) (key : String) : Bool :=
  match j with
  | Json.object members => members.any fun m => m.1 == key
  | _ => false

/-- Whether a parsed value carries every field the report schema requires. -/
def hasRequiredReportFields (j : Json) : Bool :=
  requiredReportFields.all (jsonHasKey j)

/-- Claim C1 counterexample: the empty response text is not parseable JSON at
all — so in particular it does not parse into the report shape — yet
`generateAssessment` does not fail: the falsy-text fallback substitutes the
empty object literal, and the call returns the empty object, which carries
none of the required report fields. -/
theorem generateAssessment_empty_text_degrades :
    jsonParse "" = none ∧
    generateAssessmentParse (some "") = Except.ok (Json.object []) ∧
    hasRequiredReportFields (Json.object []) = false :=
  ⟨rfl, rfl, rfl⟩

/-- Claim C1 (amended): `generateAssessment` fails with the
assessment-synthesis error exactly when the effective response text — the
raw text, with an absent or empty text replaced by the empty object
literal — is not parseable JSON; it validates nothing about the shape of
the parsed value, and in particular an empty response text yields the empty
object, which lacks all the required report fields, instead of an error. -/
theorem generateAssessment_fails_only_on_unparseable
    (s : String) (h : s ≠ "") :
    (generateAssessmentParse (some s) =
        Except.error "Assessment synthesis failed." ↔ jsonParse s = none) ∧
    generateAssessmentParse (some "") = Except.ok (Json.object []) ∧
    hasRequiredReportFields (Json.object []) = false := by
  refine ⟨?_, rfl, rfl⟩
  simp only [generateAssessmentParse, if_neg h]
  cases jsonParse s <;> simp

/-- Witness for `generateAssessment_fails_only_on_unparseable` at a concrete
unparseable response text. -/
theorem generateAssessment_fails_only_on_unparseable_witness :
    generateAssessmentParse (some "not json") =
        Except.error "Assessment synthesis failed." ↔
      jsonParse "not json" = none :=
  (generateAssessment_fails_only_on_unparseable "not json" (by decide)).1

end DuoChat
